import Mathlib

/-!
# BeerTracker: verification of the scraping/matching core

Shallow embedding of the BeerTracker price-comparison scraper
(`src/scrapers/base-scraper.ts`, `src/scrapers/index.ts`,
`src/scrapers/delhaize-scraper.ts`, `src/scrapers/prikentik-scraper.ts`,
`src/server.ts`, `src/utils/output.ts`).

Text model: JavaScript strings are modelled as lists of `Ch`, where a
letter carries its lowercase base character, an uppercase flag, and a
list of combining diacritic marks.  `chLower` models
`String.prototype.toLowerCase` (flips the flag, keeps marks, as JS
lowercasing keeps diacritics), and `chNormalize` models the source's
`normalize` helper: `toLowerCase()` then `normalize('NFKD')` with
combining marks (`̀-ͯ`) removed, then `[\s\-.]` removed.
Whitespace, `-` and `.` are embedded as `Ch.sep`; all other characters
(digits, `%`, `&`, …) as `Ch.other`.  Substring search
(`String.prototype.includes`) is list-infix on `Ch` lists.
-/

inductive Ch where
  | letter (base : Char) (upper : Bool) (marks : List Nat)
  | sep (c : Char)
  | other (c : Char)
deriving DecidableEq, Repr

/-- Embed an ASCII character the way the TS sources use them:
whitespace/hyphen/dot are separators (the class `[\s\-.]` that the
source's `normalize` strips), letters carry case, anything else is a
plain symbol. -/
def chOfChar (c : Char) : Ch :=
  if c = ' ' ∨ c = '-' ∨ c = '.' then .sep c
  else if c.isAlpha then .letter c.toLower c.isUpper []
  else .other c

/-- Embed a plain (diacritic-free) string as a `Ch` list. -/
def str (s : String) : List Ch := s.data.map chOfChar

/-- `String.prototype.toLowerCase`: lowercases letters, keeps their
diacritic marks, leaves other characters unchanged. -/
def chLower : Ch → Ch
  | .letter b _ m => .letter b false m
  | c => c

/-- The source's `normalize` helper (base-scraper.ts lines 239-245):
lowercase, NFKD-decompose and drop combining marks (which erases
diacritics), then remove whitespace/hyphen/dot.  The trailing `trim()`
is a no-op because all whitespace was already removed. -/
def chNormalize (t : List Ch) : List Ch :=
  t.filterMap fun c =>
    match c with
    | .letter b _ _ => some (.letter b false [])
    | .sep _ => none
    | .other c => some (.other c)

/-- `t.includes(p)` for JS strings: `p` occurs contiguously in `t`
(the empty pattern is always found, as in JS). -/
def jsIncludes (t p : List Ch) : Bool := decide (p <:+: t)

/-- The synonym table of `matchesKeyword` (base-scraper.ts lines
257-262), keyed by the lowercased keyword. -/
def keywordSynonyms (lowerKeyword : List Ch) : Option (List String) :=
  if lowerKeyword = str "bak" then some ["krat", "crate", "case"]
  else if lowerKeyword = str "krat" then some ["bak", "crate", "case"]
  else if lowerKeyword = str "fles" then some ["flesje", "bottle"]
  else if lowerKeyword = str "flesje" then some ["fles", "bottle"]
  else none

/-- `BaseScraper.matchesKeyword` (base-scraper.ts lines 231-279):
raw lowercase substring check, then normalized substring check (only
for a non-empty normalized keyword), then the synonym table, each
synonym checked raw and normalized. -/
def matchesKeyword (text keyword : List Ch) : Bool :=
  let lowerText := text.map chLower
  let lowerKeyword := keyword.map chLower
  if jsIncludes lowerText lowerKeyword then true
  else
    let normalizedText := chNormalize text
    let normalizedKeyword := chNormalize keyword
    if normalizedKeyword.length > 0 && jsIncludes normalizedText normalizedKeyword then
      true
    else
      match keywordSynonyms lowerKeyword with
      | some syns =>
          syns.any fun syn =>
            jsIncludes lowerText (str syn) ||
              (let normalizedSynonym := chNormalize (str syn)
               normalizedSynonym.length > 0 &&
                 jsIncludes normalizedText normalizedSynonym)
      | none => false

/-- `ProductStoreOverride` (types/index.ts lines 45-50): each field
optional; an absent field falls back to the base product's value. -/
structure StoreOverride where
  searchTerms : Option (List (List Ch)) := none
  requiredKeywords : Option (List (List Ch)) := none
  mustContain : Option (List (List Ch)) := none
  preferredKeywords : Option (List (List Ch)) := none
deriving DecidableEq, Repr

/-- `Product` (types/index.ts lines 7-14).  The optional keyword arrays
are modelled as plain lists: the source guards every use with
`arr && arr.length > 0`, so `undefined` and `[]` behave identically.
`storeOverrides` keeps the object's entry order (`Object.entries`). -/
structure Product where
  name : List Ch
  searchTerms : List (List Ch) := []
  requiredKeywords : List (List Ch) := []
  mustContain : List (List Ch) := []
  preferredKeywords : List (List Ch) := []
  storeOverrides : List (List Ch × StoreOverride) := []
deriving DecidableEq, Repr

/-- `ScrapingConfig` (types/index.ts lines 16-24); the optional
`excludeAlcoholFree` is a `Bool` (JS treats `undefined` as false). -/
structure ScrapingConfig where
  headless : Bool := true
  timeout : Nat := 0
  waitAfterPageLoad : Nat := 0
  randomDelayMin : Nat := 0
  randomDelayMax : Nat := 0
  userAgent : String := ""
  excludeAlcoholFree : Bool := false
deriving DecidableEq, Repr

/-- The fixed beverage-category vocabulary of `filterProduct`
(base-scraper.ts line 326). -/
def beerTerms : List (List Ch) :=
  [str "bier", str "pils", str "beer", str "ale", str "lager"]

/-- The fixed alcohol-free marker list of `filterProduct`
(base-scraper.ts lines 338-354); note it includes `'blik'`. -/
def alcoholFreePatterns : List (List Ch) :=
  [str "0.0%", str "0,0%", str "0.0 %", str "0,0 %",
   str "alcoholvrij", str "alcohol-free", str "alcohol free",
   str "alcohol vrij", str "zonder alcohol", str "non-alcoholic",
   str "non alcoholic", str "zero alcohol", str "0% alcohol",
   str "0 % alcohol", str "blik"]

/-- The fixed merchandise exclusion list of `filterProduct`
(base-scraper.ts lines 369-386). -/
def excludeTerms : List (List Ch) :=
  [str "glas", str "beker", str "koeler", str "opener",
   str "flesopener", str "bierglas", str "bierbeker",
   str "bierkoeler", str "bieropener", str "t-shirt", str "shirt",
   str "pet", str "muts", str "sleutelhanger", str "poster",
   str "kalender"]

/-- The `fullText` built at the top of `filterProduct`
(base-scraper.ts lines 289-293): lowercased name, optionally followed
by a space and the lowercased additional text. -/
def mkFullText (productName : List Ch) (additionalText : Option (List Ch)) : List Ch :=
  match additionalText with
  | some t => productName.map chLower ++ [Ch.sep ' '] ++ t.map chLower
  | none => productName.map chLower

/-- `BaseScraper.filterProduct` (base-scraper.ts lines 284-410).
`hasRequiredKeyword` is initialized `true` and only recomputed when
`requiredKeywords` is non-empty, exactly as in the source; each gate
short-circuits to reject.  The preferred-keyword stage only logs and is
omitted (it cannot change the result). -/
def filterProduct (cfg : ScrapingConfig) (productName : List Ch)
    (product : Product) (additionalText : Option (List Ch)) : Bool :=
  let nameLower := productName.map chLower
  let fullText := mkFullText productName additionalText
  let hasRequiredKeyword :=
    product.requiredKeywords.isEmpty ||
      product.requiredKeywords.any fun keyword => matchesKeyword fullText keyword
  if !product.requiredKeywords.isEmpty &&
      !(product.requiredKeywords.any fun keyword => matchesKeyword fullText keyword) then
    false
  else if !product.mustContain.isEmpty &&
      !(product.mustContain.any fun keyword => matchesKeyword fullText keyword) then
    false
  else if !(beerTerms.any fun term => matchesKeyword fullText term) &&
      !hasRequiredKeyword then
    false
  else if cfg.excludeAlcoholFree &&
      (alcoholFreePatterns.any fun pat => jsIncludes fullText pat) then
    false
  else if excludeTerms.any fun term => jsIncludes nameLower term then
    false
  else
    true

/-! ## Store overrides (`BaseScraper.applyStoreOverrides`, lines 420-446) -/

/-- Assignment into a JS object modelled as an association list: an
existing key is overwritten in place, a new key appended. -/
def updateAssoc (m : List (List Ch × StoreOverride)) (k : List Ch)
    (v : StoreOverride) : List (List Ch × StoreOverride) :=
  match m with
  | [] => [(k, v)]
  | (k', v') :: rest =>
      if k' = k then (k, v) :: rest else (k', v') :: updateAssoc rest k v

/-- The `normalizedOverrides` object: every entry re-inserted under its
lowercased key, later entries overwriting earlier ones. -/
def normalizeOverrides (entries : List (List Ch × StoreOverride)) :
    List (List Ch × StoreOverride) :=
  entries.foldl (fun m e => updateAssoc m (e.1.map chLower) e.2) []

/-- JS property lookup on the association-list object. -/
def lookupAssoc (m : List (List Ch × StoreOverride)) (k : List Ch) :
    Option StoreOverride :=
  match m with
  | [] => none
  | (k', v) :: rest => if k' = k then some v else lookupAssoc rest k

/-- `BaseScraper.applyStoreOverrides` (base-scraper.ts lines 420-446):
build the lowercase-keyed override object, look up the lowercased store
name, and when an entry is found rebuild the product with each of the
four fields taken from the override when present (`??` fallback to the
base product's field). -/
def applyStoreOverrides (storeName : List Ch) (product : Product) : Product :=
  let normalizedOverrides := normalizeOverrides product.storeOverrides
  let storeKey := storeName.map chLower
  match lookupAssoc normalizedOverrides storeKey with
  | none => product
  | some o =>
      { product with
        searchTerms := o.searchTerms.getD product.searchTerms
        requiredKeywords := o.requiredKeywords.getD product.requiredKeywords
        mustContain := o.mustContain.getD product.mustContain
        preferredKeywords := o.preferredKeywords.getD product.preferredKeywords }

/-- The override entry that `applyStoreOverrides` ends up consulting:
the last entry whose lowercased key equals the lowercased store name
(later JS object assignments overwrite earlier ones). -/
def findOverride (storeName : List Ch) (product : Product) : Option StoreOverride :=
  ((product.storeOverrides.filter
      fun e => e.1.map chLower = storeName.map chLower).getLast?).map (·.2)

/-! ## Scraper factory (`ScraperFactory.create`, scrapers/index.ts lines 9-34) -/

/-- `Supermarket` (types/index.ts lines 1-5). -/
structure Supermarket where
  name : List Ch
  baseUrl : String := ""
  enabled : Bool := true
deriving DecidableEq, Repr

inductive ScraperKind where
  | delhaize | colruyt | babylon | prikentik | carrefour
deriving DecidableEq, Repr

/-- `ScraperFactory.create`: switch on the lowercased store name;
unknown names throw (`Except.error`).  The config argument is not
consulted by the lookup and is omitted. -/
def createScraper (supermarket : Supermarket) : Except String ScraperKind :=
  let storeName := supermarket.name.map chLower
  if storeName = str "delhaize" then .ok .delhaize
  else if storeName = str "colruyt" then .ok .colruyt
  else if storeName = str "babylon drinks" ∨ storeName = str "babylon" then .ok .babylon
  else if storeName = str "prik&tik" ∨ storeName = str "prik en tik" ∨
      storeName = str "prikentik" then .ok .prikentik
  else if storeName = str "carrefour" then .ok .carrefour
  else .error "No scraper available"

/-- The lowercased names the factory's switch recognizes. -/
def knownStoreNames : List (List Ch) :=
  [str "delhaize", str "colruyt", str "babylon drinks", str "babylon",
   str "prik&tik", str "prik en tik", str "prikentik", str "carrefour"]

/-! ## Price parsing (`extractPrice`, identical in delhaize-scraper.ts
lines 20-33, prikentik-scraper.ts lines 18-30, and the other adapters) -/

/-- `.replace(',', '.')` with a string pattern replaces only the first
occurrence. -/
def replaceFirstComma : List Char → List Char
  | [] => []
  | c :: rest => if c = ',' then '.' :: rest else c :: replaceFirstComma rest

/-- `String.prototype.trim`. -/
def jsTrim (cs : List Char) : List Char :=
  ((cs.dropWhile Char.isWhitespace).reverse.dropWhile Char.isWhitespace).reverse

/-- First match of the regex `(\d+\.?\d*)`: the digit run starting at
the first digit, an optional dot, and the following digit run.
Returns integer part and fractional part. -/
def firstNumericToken : List Char → Option (List Char × List Char)
  | [] => none
  | c :: rest =>
      if c.isDigit then
        let ip := (c :: rest).takeWhile Char.isDigit
        match (c :: rest).dropWhile Char.isDigit with
        | '.' :: r => some (ip, r.takeWhile Char.isDigit)
        | _ => some (ip, [])
      else firstNumericToken rest

def digitsToNat (cs : List Char) : Nat :=
  cs.foldl (fun n c => 10 * n + (c.toNat - '0'.toNat)) 0

/-- `parseFloat` of a token `ip "." fp`, as the exact rational
`ip.fp = (ip·10^|fp| + fp) / 10^|fp|`. -/
def tokenValue (ip fp : List Char) : ℚ :=
  mkRat (Int.ofNat (digitsToNat ip * 10 ^ fp.length + digitsToNat fp)) (10 ^ fp.length)

/-- `extractPrice` (delhaize-scraper.ts lines 20-33): strip `€$£`,
strip whitespace, first comma to dot, trim, then the first numeric
token parsed with `parseFloat`; `null` (`none`) when no token. -/
def extractPrice (priceText : String) : Option ℚ :=
  let cleaned := jsTrim (replaceFirstComma
    ((priceText.data.filter fun c => ¬(c = '€' ∨ c = '$' ∨ c = '£')).filter
      fun c => ¬ c.isWhitespace))
  (firstNumericToken cleaned).map fun t => tokenValue t.1 t.2

/-- The record-assembly tail of `PrikentikScraper.extractProductDetails`
(prikentik-scraper.ts lines 108-211; the Delhaize adapter's tail is
identical for these fields): an empty extracted name or an empty price
text discards the record (`return null`); otherwise the record is kept
and its numeric price is `extractPrice(priceText) || undefined` (both a
failed parse and a parsed 0 coerce to `undefined`). -/
def mkDetails (name priceText : String) :
    Option (String × String × Option ℚ) :=
  if name = "" then none
  else if priceText = "" then none
  else
    some (name, priceText,
      match extractPrice priceText with
      | some v => if v = 0 then none else some v
      | none => none)

/-! ## Result aggregation (`processResults`, server.ts lines 34-55) -/

/-- `ScrapedProduct` (types/index.ts lines 32-43).  `priceValue` is the
optional parsed numeric price (an exact rational in this model);
`timestamp` is an abstract tick. -/
structure SP where
  productName : String
  supermarket : String
  price : String := ""
  priceValue : Option ℚ := none
  targetProduct : String := ""
  link : String := ""
  timestamp : Nat := 0
  available : Bool := true
  imageUrl : Option String := none
  promoTag : Option String := none
deriving DecidableEq, Repr

/-- The grouping key `result.targetProduct || result.productName`
(server.ts line 38): an empty (falsy) target-product name falls back to
the raw product name. -/
def groupKey (r : SP) : String :=
  if r.targetProduct = "" then r.productName else r.targetProduct

/-- Append `r` to the group `k` of the accumulating record, creating
the group at the end on first insertion (JS object key order). -/
def insertGrouped (m : List (String × List SP)) (k : String) (r : SP) :
    List (String × List SP) :=
  match m with
  | [] => [(k, [r])]
  | (k', rs) :: rest =>
      if k' = k then (k', rs ++ [r]) :: rest else (k', rs) :: insertGrouped rest k r

/-- The grouping loop of `processResults` (server.ts lines 37-43). -/
def groupResults (results : List SP) : List (String × List SP) :=
  results.foldl (fun m r => insertGrouped m (groupKey r) r) []

/-- The comparator key `a.priceValue || Infinity` (server.ts lines
48-49): a missing price — and, because `||` tests JS falsiness, also a
price of exactly 0 — becomes `Infinity` (`⊤`). -/
def sortKey (r : SP) : WithTop ℚ :=
  match r.priceValue with
  | some v => if v = 0 then ⊤ else (v : WithTop ℚ)
  | none => ⊤

/-- Stable insertion of `r` into an already-sorted list: `r` is placed
before the first element whose key is strictly greater, hence after all
elements comparing equal — the ES2019-mandated stable sort order for
the comparator `(a.priceValue || Infinity) - (b.priceValue || Infinity)`
(when both keys are `Infinity` the comparator returns `NaN`, which the
sort treats as "equal", again preserving the original order). -/
def insertAsc (l : List SP) (r : SP) : List SP :=
  match l with
  | [] => [r]
  | x :: xs => if sortKey r < sortKey x then r :: x :: xs else x :: insertAsc xs r

/-- `grouped[productName].sort(...)` (server.ts lines 47-51) as a
stable sort. -/
def sortGroup (rs : List SP) : List SP := rs.foldl insertAsc []

/-- `processResults` (server.ts lines 34-55): group by
`targetProduct || productName`, then sort each group by
`priceValue || Infinity` ascending. -/
def processResults (results : List SP) : List (String × List SP) :=
  (groupResults results).map fun kv => (kv.1, sortGroup kv.2)

/-- The defined numeric prices of a group, in order. -/
def definedPrices (rs : List SP) : List ℚ := rs.filterMap (·.priceValue)

/-! ## Final result assembly (`app.post('/api/scrape')`, server.ts
lines 126-235, one store's contribution) -/

/-- The de-duplication identity of the final-assembly filter
(server.ts lines 173-180): product name, store and link coincide. -/
def tripleEq (a b : SP) : Bool :=
  a.productName = b.productName ∧ a.supermarket = b.supermarket ∧ a.link = b.link

/-- `allResults` after the per-product callbacks: the callback
(server.ts lines 151-169) pushes each non-empty per-product batch as it
arrives (`scrapeProducts` invokes it only when
`productResults.length > 0`, base-scraper.ts line 489). -/
def afterCallbacks (batches : List (List SP)) : List SP :=
  batches.foldl (fun acc b => if b.isEmpty then acc else acc ++ b) []

/-- One store's contribution to the final result set (server.ts lines
149-192): the callback-accumulated list, then the top-up pass that adds
each returned result whose (name, store, link) triple is not already
present.  `scrapeProducts` returns the concatenation of all batches
(base-scraper.ts line 486). -/
def serverStoreRun (batches : List (List SP)) : List SP :=
  let accumulated := afterCallbacks batches
  let results := batches.flatten
  let newResults := results.filter fun r => !(accumulated.any fun e => tripleEq e r)
  accumulated ++ newResults

/-- "At most one entry per (product name, store, link) triple". -/
def NoDupTriples (l : List SP) : Prop :=
  l.Pairwise fun a b => tripleEq a b = false

/-! ## Session loop (`BaseScraper.scrapeProducts`, base-scraper.ts
lines 453-523).  Browser effects are abstracted into outcome oracles:
`init` is the outcome of `initialize()` and `search p` the outcome of
`searchProduct(p)` for the (override-resolved) product `p`.  The
observable actions are recorded as an event trace. -/

inductive Ev where
  | initOk | initFail
  | searchOk | searchFail
  | callback (rs : List SP)
  | cleanup
deriving DecidableEq, Repr

/-- One iteration of the per-product loop (base-scraper.ts lines
469-512): resolve overrides, search, append results, invoke the
callback on a non-empty batch; a thrown error is caught and logged and
the loop continues. -/
def scrapeStep (storeName : List Ch) (search : Product → Except Unit (List SP))
    (acc : List SP × List Ev) (p : Product) : List SP × List Ev :=
  match search (applyStoreOverrides storeName p) with
  | .ok rs =>
      (acc.1 ++ rs,
       acc.2 ++ [Ev.searchOk] ++ (if rs.isEmpty then [] else [Ev.callback rs]))
  | .error _ => (acc.1, acc.2 ++ [Ev.searchFail])

/-- `BaseScraper.scrapeProducts` (base-scraper.ts lines 453-523):
a disabled supermarket returns the empty list before anything runs;
otherwise `initialize()` runs inside `try`, a failure skips the loop,
and `cleanup()` runs in `finally` in every case. -/
def scrapeProducts (supermarket : Supermarket) (init : Except Unit Unit)
    (search : Product → Except Unit (List SP)) (products : List Product) :
    List SP × List Ev :=
  if !supermarket.enabled then ([], [])
  else
    match init with
    | .error _ => ([], [Ev.initFail, Ev.cleanup])
    | .ok _ =>
        let st := products.foldl (scrapeStep supermarket.name search) ([], [Ev.initOk])
        (st.1, st.2 ++ [Ev.cleanup])

/-- Count of per-product search attempts in a trace. -/
def searchAttempts (evs : List Ev) : Nat :=
  evs.countP fun e =>
    match e with
    | Ev.searchOk => true
    | Ev.searchFail => true
    | _ => false

/-- The per-run results a scrape collects: each successful search
contributes its batch in order, a failed search contributes nothing.
(The claim-side characterization of the loop's accumulation.) -/
def collectedResults (storeName : List Ch)
    (search : Product → Except Unit (List SP)) : List Product → List SP
  | [] => []
  | p :: rest =>
      (match search (applyStoreOverrides storeName p) with
       | .ok rs => rs
       | .error _ => []) ++ collectedResults storeName search rest

/-- Erase diacritic marks, keeping letters and case: two texts with the
same image under this map differ only in diacritics. -/
def chStripMarks : Ch → Ch
  | .letter b u _ => .letter b u []
  | c => c

/-- Executable form of "at most one entry per (name, store, link)
triple". -/
def noDupTriples : List SP → Bool
  | [] => true
  | r :: rest => (rest.all fun x => !tripleEq r x) && noDupTriples rest

/-! Concrete sample data used to instantiate the theorems. -/

def spJupilerA : SP :=
  { productName := "Jupiler Bak 24x25cl", supermarket := "Delhaize",
    price := "€16,79", priceValue := some (mkRat 1679 100),
    targetProduct := "Jupiler", link := "jup-1" }

def spJupilerB : SP :=
  { productName := "Jupiler Bak 24x25cl", supermarket := "Delhaize",
    price := "€16,79", priceValue := some (mkRat 1679 100),
    targetProduct := "Jupiler Bak", link := "jup-1" }

def spCheap : SP :=
  { productName := "Cristal 6x25cl", supermarket := "Delhaize",
    price := "€4,99", priceValue := some (mkRat 499 100),
    targetProduct := "Cristal", link := "cri-1" }

def spZeroPrice : SP :=
  { productName := "Maes 6x25cl", supermarket := "Delhaize",
    price := "€0,00", priceValue := some 0,
    targetProduct := "Cristal", link := "maes-1" }

def sampleProductA : Product := { name := str "Jupiler" }
def sampleProductB : Product := { name := str "Maes" }
def sampleProductC : Product := { name := str "Cristal" }

/-- A search oracle that fails on the middle sample product. -/
def sampleSearch : Product → Except Unit (List SP) :=
  fun p => if p.name = str "Maes" then .error () else .ok [spJupilerA]

/-- Discriminator for the factory's outcome: `true` exactly when
`createScraper` threw the unsupported-store error. -/
def isScraperError : Except String ScraperKind → Bool
  | .error _ => true
  | .ok _ => false

/-! # Theorems -/

/-! ## C10: disabled store -/

/-- C10: for every Supermarket with `enabled = false`, `scrapeProducts`
returns the empty result list immediately: no browser initialization,
no search, no callback and no cleanup appear in the event trace. -/
theorem c10_disabled_store_skips (sm : Supermarket) (init : Except Unit Unit)
    (search : Product → Except Unit (List SP)) (products : List Product)
    (h : sm.enabled = false) :
    scrapeProducts sm init search products = ([], []) := by
  simp [scrapeProducts, h]

/-- C10 witness: a concrete disabled store yields no results and an
empty event trace. -/
theorem c10_disabled_store_skips_witness :
    ({ name := str "Delhaize", enabled := false } : Supermarket).enabled = false ∧
    scrapeProducts { name := str "Delhaize", enabled := false } (.ok ())
      sampleSearch [sampleProductA] = ([], []) :=
  ⟨rfl, c10_disabled_store_skips _ _ _ _ rfl⟩

/-! ## C7: per-product error isolation and guaranteed cleanup -/

theorem searchAttempts_append (l l' : List Ev) :
    searchAttempts (l ++ l') = searchAttempts l + searchAttempts l' := by
  simp [searchAttempts, List.countP_append]

theorem foldl_scrapeStep_fst (n : List Ch) (s : Product → Except Unit (List SP)) :
    ∀ (products : List Product) (res : List SP) (evs : List Ev),
      (products.foldl (scrapeStep n s) (res, evs)).1 =
        res ++ collectedResults n s products := by
  intro products
  induction products with
  | nil => intro res evs; simp [collectedResults]
  | cons p rest ih =>
      intro res evs
      simp only [List.foldl_cons, collectedResults]
      cases hs : s (applyStoreOverrides n p) with
      | ok rs => simp [scrapeStep, hs, ih, List.append_assoc]
      | error e => simp [scrapeStep, hs, ih]

theorem foldl_scrapeStep_attempts (n : List Ch) (s : Product → Except Unit (List SP)) :
    ∀ (products : List Product) (res : List SP) (evs : List Ev),
      searchAttempts (products.foldl (scrapeStep n s) (res, evs)).2 =
        searchAttempts evs + products.length := by
  intro products
  induction products with
  | nil => intro res evs; simp
  | cons p rest ih =>
      intro res evs
      simp only [List.foldl_cons, List.length_cons]
      cases hs : s (applyStoreOverrides n p) with
      | ok rs =>
          simp only [scrapeStep, hs]
          rw [ih]
          cases hrs : rs.isEmpty <;>
            simp [searchAttempts_append, searchAttempts, List.countP_cons] <;> omega
      | error e =>
          simp only [scrapeStep, hs]
          rw [ih, searchAttempts_append]
          simp [searchAttempts, List.countP_cons]
          omega

/-- C7: for an enabled store, cleanup is always the final event (also
when initialization failed), and when initialization succeeds every
product is searched — a failing search is caught and the loop
continues — and the returned list is exactly the concatenation of the
successful searches' batches, so results collected before an error are
preserved. -/
theorem c7_error_isolation_and_cleanup (sm : Supermarket) (init : Except Unit Unit)
    (search : Product → Except Unit (List SP)) (products : List Product)
    (h : sm.enabled = true) :
    (scrapeProducts sm init search products).2.getLast? = some Ev.cleanup ∧
    (init = .ok () →
      (scrapeProducts sm init search products).1 =
        collectedResults sm.name search products ∧
      searchAttempts (scrapeProducts sm init search products).2 = products.length) := by
  cases init with
  | error e => simp [scrapeProducts, h]
  | ok u =>
      cases u
      refine ⟨?_, fun _ => ⟨?_, ?_⟩⟩
      · simp only [scrapeProducts, h]
        simp [List.getLast?_concat]
      · simp only [scrapeProducts, h]
        simp [foldl_scrapeStep_fst]
      · simp [scrapeProducts, h]
        rw [searchAttempts_append, foldl_scrapeStep_attempts]
        rw [show searchAttempts [Ev.initOk] = 0 from rfl,
          show searchAttempts [Ev.cleanup] = 0 from rfl]
        omega

/-- C7 witness: a three-product run whose middle search fails still
attempts all three products, returns the two successful batches, and
ends with cleanup. -/
theorem c7_error_isolation_and_cleanup_witness :
    (scrapeProducts { name := str "Delhaize" } (.ok ()) sampleSearch
        [sampleProductA, sampleProductB, sampleProductC]).2.getLast? = some Ev.cleanup ∧
    (scrapeProducts { name := str "Delhaize" } (.ok ()) sampleSearch
        [sampleProductA, sampleProductB, sampleProductC]).1 =
      collectedResults (str "Delhaize") sampleSearch
        [sampleProductA, sampleProductB, sampleProductC] ∧
    searchAttempts (scrapeProducts { name := str "Delhaize" } (.ok ()) sampleSearch
        [sampleProductA, sampleProductB, sampleProductC]).2 = 3 :=
  ⟨(c7_error_isolation_and_cleanup _ _ _ _ rfl).1,
    ((c7_error_isolation_and_cleanup _ _ _ _ rfl).2 rfl).1,
    ((c7_error_isolation_and_cleanup _ _ _ _ rfl).2 rfl).2⟩

/-! ## C8: scraper factory -/

/-- C8: the factory errors exactly when the lowercased store name is
outside the known name/alias vocabulary, and its outcome depends only
on the case-insensitive store name (so two names differing only in
letter case select the same adapter variant, and no other state is
consulted). -/
theorem c8_factory_lookup :
    (∀ sm : Supermarket,
      (isScraperError (createScraper sm) = true ↔
        sm.name.map chLower ∉ knownStoreNames)) ∧
    (∀ sm₁ sm₂ : Supermarket, sm₁.name.map chLower = sm₂.name.map chLower →
      createScraper sm₁ = createScraper sm₂) := by
  constructor
  · intro sm
    simp only [createScraper]
    split
    · next h => simp [isScraperError, knownStoreNames, h]
    · split
      · next h => simp [isScraperError, knownStoreNames, h]
      · split
        · next h =>
            rcases h with h | h <;> simp [isScraperError, knownStoreNames, h]
        · split
          · next h =>
              rcases h with h | h | h <;> simp [isScraperError, knownStoreNames, h]
          · split
            · next h => simp [isScraperError, knownStoreNames, h]
            · next h1 h2 h3 h4 h5 =>
                push_neg at h3 h4
                simp only [isScraperError, true_iff, knownStoreNames]
                simp [h1, h2, h3.1, h3.2, h4.1, h4.2.1, h4.2.2, h5]
  · intro sm₁ sm₂ h
    simp only [createScraper, h]

/-- C8 witness: `DELHAIZE` and `delhaize` select the same adapter, and
an unknown store name (`Aldi`) produces the unsupported-store error. -/
theorem c8_factory_lookup_witness :
    createScraper { name := str "DELHAIZE" } = createScraper { name := str "delhaize" } ∧
    isScraperError (createScraper { name := str "Aldi" }) = true :=
  ⟨c8_factory_lookup.2 _ _ (by decide), (c8_factory_lookup.1 _).mpr (by decide)⟩

/-! ## C9: the `blik` alcohol-free pattern -/

/-- C9: with `excludeAlcoholFree` enabled, `filterProduct` rejects
every record whose combined (lowercased) name-plus-metadata text
contains the substring `blik`, because `blik` is one of the fixed
alcohol-free exclusion patterns — regardless of the target product. -/
theorem c9_blik_rejection (cfg : ScrapingConfig) (name : List Ch) (p : Product)
    (addl : Option (List Ch))
    (h1 : cfg.excludeAlcoholFree = true)
    (h2 : jsIncludes (mkFullText name addl) (str "blik") = true) :
    filterProduct cfg name p addl = false := by
  have hpat : (alcoholFreePatterns.any fun pat =>
      jsIncludes (mkFullText name addl) pat) = true := by
    refine List.any_eq_true.mpr ⟨str "blik", ?_, h2⟩
    simp [alcoholFreePatterns]
  simp only [filterProduct]
  split
  · rfl
  · split
    · rfl
    · split
      · rfl
      · simp [h1, hpat]

/-- C9 witness: a fully alcoholic canned product (`Jupiler Blik 33cl`)
is rejected under the flag. -/
theorem c9_blik_rejection_witness :
    ({ excludeAlcoholFree := true } : ScrapingConfig).excludeAlcoholFree = true ∧
    jsIncludes (mkFullText (str "Jupiler Blik 33cl") none) (str "blik") = true ∧
    filterProduct { excludeAlcoholFree := true } (str "Jupiler Blik 33cl")
      sampleProductA none = false :=
  ⟨rfl, by decide, c9_blik_rejection _ _ _ _ rfl (by decide)⟩

/-! ## C1: the category sanity check with empty `requiredKeywords` -/

/-- C1 counterexample: a record with no generic beverage term, matched
against a target product whose `requiredKeywords` is empty, is
accepted by `filterProduct` (the claim says it must be rejected):
`hasRequiredKeyword` is initialized `true`, so the category check
`!hasBeerTerm && !hasRequiredKeyword` can never fire. -/
theorem c1_counterexample :
    ((beerTerms.any fun t =>
        matchesKeyword (mkFullText (str "jupiler tray 24x25cl") none) t) = false) ∧
    ({ name := str "Jupiler Tray" } : Product).requiredKeywords = [] ∧
    filterProduct {} (str "jupiler tray 24x25cl")
      { name := str "Jupiler Tray" } none = true := by
  decide

/-- C1 (amended): when `requiredKeywords` is empty the required-keyword
gate counts as satisfied, so the category sanity check never rejects;
`filterProduct` then accepts exactly when the must-contain gate, the
alcohol-free exclusion and the merchandise exclusion pass, with the
generic beverage vocabulary playing no role. -/
theorem c1_empty_required_keywords_accepted (cfg : ScrapingConfig) (name : List Ch)
    (p : Product) (addl : Option (List Ch)) (h : p.requiredKeywords = []) :
    filterProduct cfg name p addl =
      ((p.mustContain.isEmpty ||
          p.mustContain.any fun k => matchesKeyword (mkFullText name addl) k) &&
        !(cfg.excludeAlcoholFree &&
          alcoholFreePatterns.any fun pat => jsIncludes (mkFullText name addl) pat) &&
        !(excludeTerms.any fun term => jsIncludes (name.map chLower) term)) := by
  simp only [filterProduct, h, List.isEmpty_nil, Bool.not_true, Bool.false_and,
    Bool.true_or, Bool.not_false, Bool.and_false, Bool.false_eq_true, if_false]
  cases hA : p.mustContain.isEmpty <;>
  cases hB : (p.mustContain.any fun k => matchesKeyword (mkFullText name addl) k) <;>
  cases hC : (cfg.excludeAlcoholFree &&
          alcoholFreePatterns.any fun pat => jsIncludes (mkFullText name addl) pat) <;>
  cases hD : (excludeTerms.any fun term => jsIncludes (name.map chLower) term) <;>
  simp_all

/-- C1 witness: the amended equation evaluated at the counterexample
record. -/
theorem c1_empty_required_keywords_accepted_witness :
    ({ name := str "Jupiler Tray" } : Product).requiredKeywords = [] ∧
    filterProduct {} (str "jupiler tray 24x25cl") { name := str "Jupiler Tray" } none =
      ((({ name := str "Jupiler Tray" } : Product).mustContain.isEmpty ||
          ({ name := str "Jupiler Tray" } : Product).mustContain.any
            fun k => matchesKeyword (mkFullText (str "jupiler tray 24x25cl") none) k) &&
        !(({} : ScrapingConfig).excludeAlcoholFree &&
          alcoholFreePatterns.any
            fun pat => jsIncludes (mkFullText (str "jupiler tray 24x25cl") none) pat) &&
        !(excludeTerms.any
            fun term => jsIncludes ((str "jupiler tray 24x25cl").map chLower) term)) :=
  ⟨rfl, c1_empty_required_keywords_accepted _ _ _ _ rfl⟩

/-! ## C2: de-duplication of the final result set -/

theorem tripleEq_refl (r : SP) : tripleEq r r = true := by
  simp [tripleEq]

theorem afterCallbacks_eq_flatten (batches : List (List SP)) :
    afterCallbacks batches = batches.flatten := by
  have key : ∀ (bs : List (List SP)) (acc : List SP),
      bs.foldl (fun acc b => if b.isEmpty then acc else acc ++ b) acc =
        acc ++ bs.flatten := by
    intro bs
    induction bs with
    | nil => intro acc; simp
    | cons b rest ih =>
        intro acc
        simp only [List.foldl_cons, List.flatten_cons]
        cases hb : b.isEmpty
        · rw [ih]
          simp [List.append_assoc]
        · rw [List.isEmpty_iff] at hb
          subst hb
          rw [ih]
          simp
  exact (key batches []).trans (List.nil_append _)

/-- C2 counterexample: the same (name, store, link) triple matched for
two different target products reaches the final set twice — both copies
arrive through the incremental callback, which never de-duplicates, so
the final emitted set is not unique per triple as the claim states. -/
theorem c2_counterexample :
    tripleEq spJupilerA spJupilerB = true ∧
    spJupilerA ≠ spJupilerB ∧
    serverStoreRun [[spJupilerA], [spJupilerB]] = [spJupilerA, spJupilerB] ∧
    noDupTriples (serverStoreRun [[spJupilerA], [spJupilerB]]) = false := by
  decide

/-- C2 (amended): the triple-keyed de-duplication applies only to the
final top-up pass.  Since every non-empty batch is already pushed by
the incremental callback, the top-up never adds anything, and the final
set per store is exactly the concatenation of all per-product batches:
no result is double-counted through the two paths, but duplicate
triples that each arrive via the callback are all retained. -/
theorem c2_final_set_is_flatten (batches : List (List SP)) :
    serverStoreRun batches = batches.flatten := by
  rw [serverStoreRun, afterCallbacks_eq_flatten]
  have hfilter :
      (batches.flatten.filter fun r =>
        !(batches.flatten.any fun e => tripleEq e r)) = [] := by
    rw [List.filter_eq_nil_iff]
    intro r hr
    simp only [Bool.not_eq_true', Bool.not_eq_false]
    exact List.any_eq_true.mpr ⟨r, hr, tripleEq_refl r⟩
  rw [hfilter, List.append_nil]

/-! ## C4: case and diacritic invariance of the matching decision -/

/-- C4 counterexample: two record names that differ only in a diacritic
(an accented `i` in `alcoholvrij`) produce different decisions when the
alcohol-free exclusion is enabled: that stage matches raw substrings
with no diacritic normalization, so the accented variant escapes
rejection. -/
theorem c4_counterexample :
    ((str "jupiler bier alcoholvrij").map chStripMarks =
      (str "jupiler bier alcoholvr" ++ [Ch.letter 'i' false [0]] ++ str "j").map
        chStripMarks) ∧
    filterProduct { excludeAlcoholFree := true } (str "jupiler bier alcoholvrij")
      sampleProductA none = false ∧
    filterProduct { excludeAlcoholFree := true }
      (str "jupiler bier alcoholvr" ++ [Ch.letter 'i' false [0]] ++ str "j")
      sampleProductA none = true := by
  decide

theorem mkFullText_congr (name₁ name₂ : List Ch) (addl₁ addl₂ : Option (List Ch))
    (hn : name₁.map chLower = name₂.map chLower)
    (ha : addl₁.map (List.map chLower) = addl₂.map (List.map chLower)) :
    mkFullText name₁ addl₁ = mkFullText name₂ addl₂ := by
  cases addl₁ with
  | none =>
      cases addl₂ with
      | none => simp [mkFullText, hn]
      | some t₂ => simp [Option.map_some', Option.map_none'] at ha
  | some t₁ =>
      cases addl₂ with
      | none => simp [Option.map_some', Option.map_none'] at ha
      | some t₂ =>
          simp only [Option.map_some', Option.some.injEq] at ha
          simp [mkFullText, hn, ha]

/-- C4 (amended): the matching decision is invariant under letter-case
changes of the record's text (every stage compares lowercased text),
but not under diacritic changes: the keyword gates strip diacritics
while the alcohol-free and merchandise exclusion stages do not, as the
counterexample shows. -/
theorem c4_case_invariance (cfg : ScrapingConfig) (p : Product)
    (name₁ name₂ : List Ch) (addl₁ addl₂ : Option (List Ch))
    (hn : name₁.map chLower = name₂.map chLower)
    (ha : addl₁.map (List.map chLower) = addl₂.map (List.map chLower)) :
    filterProduct cfg name₁ p addl₁ = filterProduct cfg name₂ p addl₂ := by
  have hf := mkFullText_congr name₁ name₂ addl₁ addl₂ hn ha
  simp only [filterProduct, hn, hf]

/-- C4 witness: the decision for `Jupiler Bier` equals the decision for
`JUPILER bier`. -/
theorem c4_case_invariance_witness :
    (str "Jupiler Bier").map chLower = (str "JUPILER bier").map chLower ∧
    filterProduct {} (str "Jupiler Bier") sampleProductA none =
      filterProduct {} (str "JUPILER bier") sampleProductA none :=
  ⟨by decide, c4_case_invariance _ _ _ _ _ _ (by decide) rfl⟩

/-! ## C5: store-override resolution -/

theorem lookupAssoc_updateAssoc (m : List (List Ch × StoreOverride))
    (k key : List Ch) (v : StoreOverride) :
    lookupAssoc (updateAssoc m k v) key =
      if k = key then some v else lookupAssoc m key := by
  induction m with
  | nil => simp [updateAssoc, lookupAssoc]
  | cons e rest ih =>
      obtain ⟨k', v'⟩ := e
      simp only [updateAssoc]
      by_cases hk : k' = k
      · subst hk
        simp only [if_pos rfl, lookupAssoc]
        by_cases hkey : k' = key
        · subst hkey; simp
        · simp [hkey]
      · rw [if_neg hk]
        simp only [lookupAssoc]
        by_cases hkey : k' = key
        · subst hkey
          rw [if_pos rfl, if_pos rfl]
          by_cases h2 : k = k'
          · exact absurd h2.symm hk
          · rw [if_neg h2]
        · rw [if_neg hkey, if_neg hkey, ih]

theorem lookupAssoc_normalizeOverrides (entries : List (List Ch × StoreOverride))
    (key : List Ch) :
    lookupAssoc (normalizeOverrides entries) key =
      (((entries.filter fun e => e.1.map chLower = key).getLast?).map (·.2)) := by
  have key_gen : ∀ (es : List (List Ch × StoreOverride))
      (m : List (List Ch × StoreOverride)),
      lookupAssoc (es.foldl (fun m e => updateAssoc m (e.1.map chLower) e.2) m) key =
        match ((es.filter fun e => e.1.map chLower = key).getLast?).map (·.2) with
        | some v => some v
        | none => lookupAssoc m key := by
    intro es
    induction es with
    | nil => intro m; simp
    | cons e rest ih =>
        intro m
        simp only [List.foldl_cons, List.filter_cons]
        by_cases he : e.1.map chLower = key
        · rw [if_pos (by simpa using he)]
          rw [ih]
          cases hrest : ((rest.filter fun e => e.1.map chLower = key).getLast?) with
          | none =>
              simp only [hrest, List.getLast?_cons, Option.map_none']
              rw [List.getLast?_eq_none_iff] at hrest
              simp [hrest, lookupAssoc_updateAssoc, he]
          | some last =>
              simp [List.getLast?_cons, hrest]
        · rw [if_neg (by simpa using he)]
          rw [ih]
          cases hrest : ((rest.filter fun e => e.1.map chLower = key).getLast?) with
          | none => simp [hrest, lookupAssoc_updateAssoc, he]
          | some last => simp [hrest]
  rw [normalizeOverrides, key_gen entries []]
  cases h : ((entries.filter fun e => e.1.map chLower = key).getLast?) <;>
    simp [h, lookupAssoc]

/-- C5 counterexample: an override entry for the current store that
specifies only `requiredKeywords` does not replace the base product's
fields wholesale — two base products differing only in `mustContain`
keep their distinct `mustContain` values under the very same override
entry, so the effective product is not determined by the override's
fields alone as the claim states. -/
theorem c5_counterexample :
    (findOverride (str "delhaize")
        { name := str "Jupiler",
          mustContain := [str "bak"],
          storeOverrides :=
            [(str "Delhaize", { requiredKeywords := some [str "maes"] })] } =
      some { requiredKeywords := some [str "maes"] }) ∧
    (applyStoreOverrides (str "delhaize")
        { name := str "Jupiler",
          mustContain := [str "bak"],
          storeOverrides :=
            [(str "Delhaize", { requiredKeywords := some [str "maes"] })] }).mustContain =
      [str "bak"] ∧
    (applyStoreOverrides (str "delhaize")
        { name := str "Jupiler",
          mustContain := [str "krat"],
          storeOverrides :=
            [(str "Delhaize", { requiredKeywords := some [str "maes"] })] }).mustContain =
      [str "krat"] := by
  decide

/-- C5 (amended): the override entry is selected by case-insensitive
store-name comparison (the last entry with that key winning); each of
the four fields the entry specifies replaces the base field wholesale,
fields the entry leaves unspecified keep the base product's values, and
when no entry matches the effective product is identical to the base
TargetProduct. -/
theorem c5_override_resolution (storeName : List Ch) (p : Product) :
    applyStoreOverrides storeName p =
      match findOverride storeName p with
      | none => p
      | some o =>
          { p with
            searchTerms := o.searchTerms.getD p.searchTerms
            requiredKeywords := o.requiredKeywords.getD p.requiredKeywords
            mustContain := o.mustContain.getD p.mustContain
            preferredKeywords := o.preferredKeywords.getD p.preferredKeywords } := by
  rw [applyStoreOverrides, findOverride, lookupAssoc_normalizeOverrides]
  try rfl

/-! ## C6: price parsing and record retention -/

/-- C6: the price parser maps `€2,49` to 2.49 and `16,79 €` to 16.79,
and text with no numeric token (`Prijs onbekend`) to no value; record
assembly keeps a record with non-empty price text even when parsing
fails (numeric price absent), and discards a record whose price text is
empty. -/
theorem c6_price_parsing :
    extractPrice "€2,49" = some (mkRat 249 100) ∧
    extractPrice "16,79 €" = some (mkRat 1679 100) ∧
    extractPrice "Prijs onbekend" = none ∧
    (∀ name pt : String, name ≠ "" → pt ≠ "" → extractPrice pt = none →
      mkDetails name pt = some (name, pt, none)) ∧
    (∀ name : String, mkDetails name "" = none) := by
  refine ⟨by decide, by decide, by decide, ?_, ?_⟩
  · intro name pt hn hp hparse
    simp [mkDetails, hn, hp, hparse]
  · intro name
    by_cases hn : name = "" <;> simp [mkDetails, hn]

/-- C6 witness: the retention clauses evaluated at `Prijs onbekend` and
at empty price text. -/
theorem c6_price_parsing_witness :
    ("Jupiler" : String) ≠ "" ∧ ("Prijs onbekend" : String) ≠ "" ∧
    extractPrice "Prijs onbekend" = none ∧
    mkDetails "Jupiler" "Prijs onbekend" = some ("Jupiler", "Prijs onbekend", none) ∧
    mkDetails "Jupiler" "" = none :=
  ⟨by decide, by decide, c6_price_parsing.2.2.1,
    c6_price_parsing.2.2.2.1 "Jupiler" "Prijs onbekend" (by decide) (by decide)
      c6_price_parsing.2.2.1,
    c6_price_parsing.2.2.2.2 "Jupiler"⟩

/-! ## C3: grouping and price-sorting of results -/

/-- C3 counterexample: a group containing a record whose defined
numeric price is 0 is mis-sorted: `a.priceValue || Infinity` treats the
falsy 0 as a missing price, so the 0-priced record sorts after a
4.99-priced one and the defined prices of the group come out
decreasing, contrary to the claim. -/
theorem c3_counterexample :
    processResults [spCheap, spZeroPrice] = [("Cristal", [spCheap, spZeroPrice])] ∧
    definedPrices [spCheap, spZeroPrice] = [mkRat 499 100, 0] ∧
    ¬ List.Chain' (· ≤ ·) (definedPrices (sortGroup [spCheap, spZeroPrice])) := by
  refine ⟨by decide, by decide, ?_⟩
  intro h
  rw [show definedPrices (sortGroup [spCheap, spZeroPrice]) =
    [mkRat 499 100, 0] by decide] at h
  exact absurd (List.chain'_cons.mp h).1 (by decide)

theorem mem_insertAsc (l : List SP) (r y : SP) :
    y ∈ insertAsc l r ↔ y ∈ l ∨ y = r := by
  induction l with
  | nil => simp [insertAsc]
  | cons x xs ih =>
      rw [insertAsc]
      by_cases hlt : sortKey r < sortKey x
      · rw [if_pos hlt]
        simp [List.mem_cons]
        tauto
      · rw [if_neg hlt]
        simp [List.mem_cons, ih]
        tauto

theorem insertAsc_pairwise (l : List SP) (r : SP)
    (h : l.Pairwise fun a b => sortKey a ≤ sortKey b) :
    (insertAsc l r).Pairwise fun a b => sortKey a ≤ sortKey b := by
  induction l with
  | nil => simp [insertAsc]
  | cons x xs ih =>
      rw [insertAsc]
      by_cases hlt : sortKey r < sortKey x
      · rw [if_pos hlt]
        refine List.Pairwise.cons ?_ h
        intro y hy
        rcases List.mem_cons.mp hy with hy | hy
        · exact le_of_lt (hy ▸ hlt)
        · exact le_of_lt (lt_of_lt_of_le hlt (List.rel_of_pairwise_cons h hy))
      · rw [if_neg hlt]
        have hxr : sortKey x ≤ sortKey r := le_of_not_lt hlt
        refine List.Pairwise.cons ?_ (ih (List.Pairwise.of_cons h))
        intro y hy
        rcases (mem_insertAsc xs r y).mp hy with hy | hy
        · exact List.rel_of_pairwise_cons h hy
        · exact hy ▸ hxr

theorem sortGroup_pairwise_gen :
    ∀ (rs : List SP) (acc : List SP),
      acc.Pairwise (fun a b => sortKey a ≤ sortKey b) →
      (rs.foldl insertAsc acc).Pairwise fun a b => sortKey a ≤ sortKey b := by
  intro rs
  induction rs with
  | nil => intro acc h; simpa using h
  | cons r rest ih =>
      intro acc h
      simp only [List.foldl_cons]
      exact ih _ (insertAsc_pairwise acc r h)

theorem sortGroup_pairwise (rs : List SP) :
    (sortGroup rs).Pairwise fun a b => sortKey a ≤ sortKey b :=
  sortGroup_pairwise_gen rs [] (by simp)

theorem mem_sortGroup_gen :
    ∀ (rs : List SP) (acc : List SP) (y : SP),
      y ∈ rs.foldl insertAsc acc ↔ y ∈ acc ∨ y ∈ rs := by
  intro rs
  induction rs with
  | nil => intro acc y; simp
  | cons r rest ih =>
      intro acc y
      simp only [List.foldl_cons]
      rw [ih, mem_insertAsc]
      simp [List.mem_cons]
      tauto

theorem mem_sortGroup (rs : List SP) (y : SP) : y ∈ sortGroup rs ↔ y ∈ rs := by
  rw [sortGroup, mem_sortGroup_gen]
  simp

theorem insertAsc_filter (q : WithTop ℚ) :
    ∀ (l : List SP) (r : SP), l.Pairwise (fun a b => sortKey a ≤ sortKey b) →
      (insertAsc l r).filter (fun x => decide (sortKey x = q)) =
        l.filter (fun x => decide (sortKey x = q)) ++
          (if sortKey r = q then [r] else []) := by
  intro l
  induction l with
  | nil =>
      intro r _
      by_cases hq : sortKey r = q <;> simp [insertAsc, List.filter, hq]
  | cons x xs ih =>
      intro r hp
      rw [insertAsc]
      by_cases hlt : sortKey r < sortKey x
      · rw [if_pos hlt]
        by_cases hq : sortKey r = q
        · have hempty : (x :: xs).filter (fun y => decide (sortKey y = q)) = [] := by
            rw [List.filter_eq_nil_iff]
            intro y hy
            have hxy : sortKey x ≤ sortKey y := by
              rcases List.mem_cons.mp hy with hy | hy
              · exact hy ▸ le_refl _
              · exact List.rel_of_pairwise_cons hp hy
            have hqy : q < sortKey y := lt_of_lt_of_le (hq ▸ hlt) hxy
            simp only [decide_eq_true_eq]
            exact ne_of_gt hqy
          rw [List.filter_cons_of_pos (by simp [hq]), hempty, if_pos hq]
          rfl
        · rw [List.filter_cons_of_neg (by simp [hq]), if_neg hq, List.append_nil]
      · rw [if_neg hlt]
        have hxs := List.Pairwise.of_cons hp
        by_cases hx : sortKey x = q
        · rw [List.filter_cons_of_pos (by simp [hx]),
            List.filter_cons_of_pos (by simp [hx]), ih r hxs, List.cons_append]
        · rw [List.filter_cons_of_neg (by simp [hx]),
            List.filter_cons_of_neg (by simp [hx]), ih r hxs]

theorem sortGroup_filter_gen (q : WithTop ℚ) :
    ∀ (rs : List SP) (acc : List SP),
      acc.Pairwise (fun a b => sortKey a ≤ sortKey b) →
      (rs.foldl insertAsc acc).filter (fun x => decide (sortKey x = q)) =
        acc.filter (fun x => decide (sortKey x = q)) ++
          rs.filter (fun x => decide (sortKey x = q)) := by
  intro rs
  induction rs with
  | nil => intro acc h; simp
  | cons r rest ih =>
      intro acc h
      simp only [List.foldl_cons]
      rw [ih _ (insertAsc_pairwise acc r h), insertAsc_filter q acc r h]
      by_cases hq : sortKey r = q
      · rw [if_pos hq, List.filter_cons_of_pos (by simp [hq])]
        simp [List.append_assoc]
      · rw [if_neg hq, List.filter_cons_of_neg (by simp [hq]), List.append_nil]

theorem sortGroup_filter (q : WithTop ℚ) (rs : List SP) :
    (sortGroup rs).filter (fun x => decide (sortKey x = q)) =
      rs.filter (fun x => decide (sortKey x = q)) := by
  rw [sortGroup, sortGroup_filter_gen q rs [] (by simp)]
  rfl

theorem sortKey_of_pos {r : SP} {v : ℚ} (hv : r.priceValue = some v) (hpos : 0 < v) :
    sortKey r = (v : WithTop ℚ) := by
  simp [sortKey, hv, ne_of_gt hpos]

theorem pairwise_definedPrices :
    ∀ (l : List SP), l.Pairwise (fun a b => sortKey a ≤ sortKey b) →
      (∀ r ∈ l, 0 < r.priceValue.getD 1) →
      (definedPrices l).Pairwise (· ≤ ·) := by
  intro l
  induction l with
  | nil => intro _ _; simp [definedPrices]
  | cons r t ih =>
      intro hp hpos
      have hpt : ∀ x ∈ t, 0 < x.priceValue.getD 1 := fun x hx =>
        hpos x (List.mem_cons_of_mem r hx)
      cases hr : r.priceValue with
      | none =>
          rw [definedPrices, List.filterMap_cons_none hr]
          exact ih (List.Pairwise.of_cons hp) hpt
      | some v =>
          have hv : 0 < v := by
            have := hpos r (List.mem_cons_self r t)
            rwa [hr, Option.getD_some] at this
          rw [definedPrices, List.filterMap_cons_some hr]
          refine List.Pairwise.cons ?_ (ih (List.Pairwise.of_cons hp) hpt)
          intro u hu
          rw [← definedPrices] at hu
          obtain ⟨x, hx, hxu⟩ := List.mem_filterMap.mp hu
          have hu0 : 0 < u := by
            have := hpt x hx
            rwa [hxu, Option.getD_some] at this
          have hrx : sortKey r ≤ sortKey x := List.rel_of_pairwise_cons hp hx
          rw [sortKey_of_pos hr hv, sortKey_of_pos hxu hu0] at hrx
          exact_mod_cast hrx

theorem pairwise_noneAfterSome :
    ∀ (l : List SP), l.Pairwise (fun a b => sortKey a ≤ sortKey b) →
      (∀ r ∈ l, 0 < r.priceValue.getD 1) →
      l.Pairwise fun a b => ¬(a.priceValue = none ∧ b.priceValue ≠ none) := by
  intro l hp hpos
  refine hp.imp_of_mem ?_
  intro a b ha hb hab
  rintro ⟨hna, hnb⟩
  cases hbv : b.priceValue with
  | none => exact hnb hbv
  | some v =>
      have hv : 0 < v := by
        have := hpos b hb
        rwa [hbv, Option.getD_some] at this
      rw [show sortKey a = ⊤ from by simp [sortKey, hna], sortKey_of_pos hbv hv] at hab
      exact (WithTop.coe_ne_top (top_le_iff.mp hab)).elim

theorem insertGrouped_mem (m : List (String × List SP)) (k : String) (x : SP)
    (k' : String) (orig : List SP)
    (h : (k', orig) ∈ insertGrouped m k x) :
    ∀ r ∈ orig, (∃ orig', (k', orig') ∈ m ∧ r ∈ orig') ∨ r = x := by
  induction m with
  | nil =>
      simp only [insertGrouped, List.mem_singleton, Prod.mk.injEq] at h
      intro r hr
      rw [h.2] at hr
      simp only [List.mem_singleton] at hr
      exact Or.inr hr
  | cons e rest ih =>
      obtain ⟨ke, rse⟩ := e
      rw [insertGrouped] at h
      by_cases hk : ke = k
      · rw [if_pos hk] at h
        rcases List.mem_cons.mp h with h | h
        · obtain ⟨h1, h2⟩ := Prod.mk.injEq .. ▸ h
          intro r hr
          rw [h2] at hr
          rcases List.mem_append.mp hr with hr | hr
          · exact Or.inl ⟨rse, by rw [h1]; exact List.mem_cons_self _ _, hr⟩
          · simp only [List.mem_singleton] at hr
            exact Or.inr hr
        · intro r hr
          exact Or.inl ⟨orig, List.mem_cons_of_mem _ h, hr⟩
      · rw [if_neg hk] at h
        rcases List.mem_cons.mp h with h | h
        · intro r hr
          exact Or.inl ⟨orig, by rw [h]; exact List.mem_cons_self _ _, hr⟩
        · intro r hr
          rcases ih h r hr with ⟨orig', ho, hro⟩ | hx
          · exact Or.inl ⟨orig', List.mem_cons_of_mem _ ho, hro⟩
          · exact Or.inr hx

theorem groupResults_mem (results : List SP) (k : String) (orig : List SP)
    (h : (k, orig) ∈ groupResults results) : ∀ r ∈ orig, r ∈ results := by
  have key : ∀ (l : List SP) (acc : List (String × List SP)),
      (∀ k' orig', (k', orig') ∈ acc → ∀ r ∈ orig', r ∈ results) →
      (∀ x ∈ l, x ∈ results) →
      ∀ k' orig', (k', orig') ∈ l.foldl (fun m r => insertGrouped m (groupKey r) r) acc →
        ∀ r ∈ orig', r ∈ results := by
    intro l
    induction l with
    | nil => intro acc hacc _ k' orig' h' r hr; exact hacc k' orig' h' r hr
    | cons x rest ih =>
        intro acc hacc hl k' orig' h' r hr
        refine ih (insertGrouped acc (groupKey x) x) ?_
          (fun y hy => hl y (List.mem_cons_of_mem x hy)) k' orig' (by simpa using h') r hr
        intro k'' orig'' hmem s hs
        rcases insertGrouped_mem acc (groupKey x) x k'' orig'' hmem s hs with
          ⟨o', ho', hso⟩ | hsx
        · exact hacc k'' o' ho' s hso
        · exact hsx ▸ hl x (List.mem_cons_self x rest)
  exact key results [] (by simp) (fun x hx => hx) k orig h

/-- C3 (amended): provided every defined numeric price in the batch is
positive (a price of exactly 0 is coerced to "missing" by the
`|| Infinity` comparator key, as the counterexample shows), every group
of `processResults` is the stable sort of the discovery-ordered group:
its defined prices are non-decreasing, every record without a numeric
price sits after all records that have one, and records comparing equal
under the sort key keep their original relative order (their filtered
subsequence is unchanged). -/
theorem c3_group_sorting (results : List SP) (q : WithTop ℚ) (k : String)
    (orig : List SP)
    (hpos : ∀ r ∈ results, 0 < r.priceValue.getD 1)
    (hmem : (k, orig) ∈ groupResults results) :
    (k, sortGroup orig) ∈ processResults results ∧
    List.Chain' (· ≤ ·) (definedPrices (sortGroup orig)) ∧
    ((sortGroup orig).Pairwise fun a b => ¬(a.priceValue = none ∧ b.priceValue ≠ none)) ∧
    (sortGroup orig).filter (fun x => decide (sortKey x = q)) =
      orig.filter (fun x => decide (sortKey x = q)) := by
  have hposg : ∀ r ∈ sortGroup orig, 0 < r.priceValue.getD 1 := fun r hr =>
    hpos r (groupResults_mem results k orig hmem r ((mem_sortGroup orig r).mp hr))
  have hpw := sortGroup_pairwise orig
  refine ⟨?_, ?_, ?_, sortGroup_filter q orig⟩
  · have heq : (fun kv : String × List SP => (kv.1, sortGroup kv.2)) (k, orig) =
        (k, sortGroup orig) := rfl
    rw [processResults, ← heq]
    exact List.mem_map_of_mem _ hmem
  · exact List.chain'_iff_pairwise.mpr (pairwise_definedPrices (sortGroup orig) hpw hposg)
  · exact pairwise_noneAfterSome (sortGroup orig) hpw hposg

/-- C3 witness: the amended statement instantiated at a concrete
two-record batch with positive prices. -/
theorem c3_group_sorting_witness :
    (∀ r ∈ [spJupilerA, spCheap], 0 < r.priceValue.getD 1) ∧
    ("Jupiler", [spJupilerA]) ∈ groupResults [spJupilerA, spCheap] ∧
    (("Jupiler", sortGroup [spJupilerA]) ∈ processResults [spJupilerA, spCheap] ∧
      List.Chain' (· ≤ ·) (definedPrices (sortGroup [spJupilerA])) ∧
      ((sortGroup [spJupilerA]).Pairwise fun a b =>
        ¬(a.priceValue = none ∧ b.priceValue ≠ none)) ∧
      (sortGroup [spJupilerA]).filter
          (fun x => decide (sortKey x = ((mkRat 1679 100 : ℚ) : WithTop ℚ))) =
        [spJupilerA].filter
          (fun x => decide (sortKey x = ((mkRat 1679 100 : ℚ) : WithTop ℚ)))) :=
  ⟨by decide, by decide,
    c3_group_sorting [spJupilerA, spCheap] ((mkRat 1679 100 : ℚ) : WithTop ℚ)
      "Jupiler" [spJupilerA] (by decide) (by decide)⟩
